import Mathlib

/-!
# Verification of the p3_dot_analyzer batch analysis pipeline

A shallow embedding of `src/p3_dot_analyzer/services/analysis_service.py`:
mark detection geometry, bounding-box overlap, identity tracking with
retirement, parallel batch sampling (modelled sequentially, since each worker
task is independent and the collected results are re-sorted by timestamp
before any order-sensitive processing), and the batch aggregation that
produces `BatchAnalysisResult`.

Python floats are modelled as exact rationals (`ℚ`); `np.pi` is modelled by
the exact value of the IEEE-754 double `np.pi`.  Python `dict`s keyed by area
name are modelled as total functions `String → _`; this is faithful whenever
the named-area names are pairwise distinct, which the data model requires
(`NamedArea.name` is a unique key) and which theorems assume explicitly where
it matters.
-/

namespace P3DotAnalyzer

/-- `DetectedMark` from `analysis_service.py`: a detected circular or
elliptical mark. -/
structure DetectedMark where
  center_x : ℚ
  center_y : ℚ
  axis_a : ℚ
  axis_b : ℚ
  angle : ℚ
  deriving Repr, DecidableEq

/-- An axis-aligned bounding box `(x1, y1, x2, y2)`, the Python 4-tuple. -/
structure BBox where
  x1 : ℚ
  y1 : ℚ
  x2 : ℚ
  y2 : ℚ
  deriving Repr, DecidableEq

/-- `_mark_bbox`: bounding box of a mark, center ± semi-axes. -/
def markBbox (mark : DetectedMark) : BBox :=
  { x1 := mark.center_x - mark.axis_a
    y1 := mark.center_y - mark.axis_b
    x2 := mark.center_x + mark.axis_a
    y2 := mark.center_y + mark.axis_b }

/-- `_bbox_overlap_ratio`: intersection area divided by the smaller box's
area; `0` when the boxes do not intersect or the smaller area is `≤ 0`. -/
def bboxOverlapRatio (bbox_a bbox_b : BBox) : ℚ :=
  let inter_x1 := max bbox_a.x1 bbox_b.x1
  let inter_y1 := max bbox_a.y1 bbox_b.y1
  let inter_x2 := min bbox_a.x2 bbox_b.x2
  let inter_y2 := min bbox_a.y2 bbox_b.y2
  let inter_w := inter_x2 - inter_x1
  let inter_h := inter_y2 - inter_y1
  if inter_w ≤ 0 ∨ inter_h ≤ 0 then 0
  else
    let inter_area := inter_w * inter_h
    let area_a := max 0 (bbox_a.x2 - bbox_a.x1) * max 0 (bbox_a.y2 - bbox_a.y1)
    let area_b := max 0 (bbox_b.x2 - bbox_b.x1) * max 0 (bbox_b.y2 - bbox_b.y1)
    let denom := min area_a area_b
    if denom ≤ 0 then 0
    else inter_area / denom

/-- The exact rational value of the IEEE-754 double `np.pi` used by
`detect_colored_marks` to compute circularity. -/
def npPi : ℚ := 884279719003555 / 281474976710656

/-- A contour as seen through the OpenCV measurements the detection loop
consumes.  `cv2.contourArea`, `cv2.arcLength`, `len(contour)`,
`cv2.fitEllipse` and `cv2.minEnclosingCircle` are external library functions;
each is modelled as a field recording its value on this contour.
`fitAxes` are the *full* axes returned by `cv2.fitEllipse`. -/
structure Contour where
  area : ℚ
  perimeter : ℚ
  pointCount : ℕ
  fitCenterX : ℚ
  fitCenterY : ℚ
  fitAxes1 : ℚ
  fitAxes2 : ℚ
  fitAngle : ℚ
  mecCenterX : ℚ
  mecCenterY : ℚ
  mecRadius : ℚ
  deriving Repr, DecidableEq

/-- The per-contour filter of `detect_colored_marks`: a contour is kept iff
its area is within `[min_area, max_area]`, its perimeter is nonzero, and its
circularity `4·π·area / perimeter²` is at least `min_circularity`. -/
def contourKept (min_area max_area min_circularity : ℚ) (c : Contour) : Bool :=
  if c.area < min_area then false
  else if max_area < c.area then false
  else if c.perimeter = 0 then false
  else
    let circularity := 4 * npPi * c.area / (c.perimeter * c.perimeter)
    decide (min_circularity ≤ circularity)

/-- The mark emitted by `detect_colored_marks` for a kept contour: an ellipse
fit (semi-axes = full fitted axes / 2) when the contour has at least five
points, otherwise the minimum enclosing circle. -/
def contourMark (c : Contour) : DetectedMark :=
  if 5 ≤ c.pointCount then
    { center_x := c.fitCenterX
      center_y := c.fitCenterY
      axis_a := c.fitAxes1 / 2
      axis_b := c.fitAxes2 / 2
      angle := c.fitAngle }
  else
    { center_x := c.mecCenterX
      center_y := c.mecCenterY
      axis_a := c.mecRadius
      axis_b := c.mecRadius
      angle := 0 }

/-- The contour loop of `detect_colored_marks` (lines 144–188 of
`analysis_service.py`).  The preceding thresholding / contour-extraction
stage is the external OpenCV pipeline; its output is the `contours` input. -/
def detectColoredMarks (contours : List Contour)
    (min_area max_area min_circularity : ℚ) : List DetectedMark :=
  (contours.filter (contourKept min_area max_area min_circularity)).map contourMark

/-- `_TrackedMark`: a mark with a stable identity within one batch run. -/
structure TrackedMark where
  id : ℕ
  mark : DetectedMark
  bbox : BBox
  last_seen_frame : ℕ
  deriving Repr, DecidableEq

/-- The best-match scan of `_build_batch_points_from_results`: over the
active marks (with their indices), skipping already-matched indices, keep the
index achieving the strictly largest overlap ratio with `bbox`; `(-1, 0)`
when none beats ratio `0`. -/
def bestMatch (bbox : BBox) (active : List TrackedMark) (matched : Finset ℕ) :
    ℤ × ℚ :=
  active.enum.foldl
    (fun (best : ℤ × ℚ) (p : ℕ × TrackedMark) =>
      if p.1 ∈ matched then best
      else
        let ratio := bboxOverlapRatio bbox p.2.bbox
        if best.2 < ratio then ((p.1 : ℤ), ratio) else best)
    (-1, 0)

/-- The state of the per-frame detection loop: indices (into `active`) of the
marks kept this frame, the active tracked marks, and the set of active
indices already matched this frame. -/
structure DetectState where
  filteredIdx : List ℕ
  active : List TrackedMark
  matched : Finset ℕ

/-- One detection inside the per-frame loop of
`_build_batch_points_from_results`: discard if overlapping a retired bbox
with ratio `> 0.4`; otherwise match to the best active mark when the best
ratio is `> 0.4` (updating its observation), else allocate a new
`TrackedMark` with `id = active.length`.  The kept mark is referenced by its
index into `active`, mirroring the Python object reference. -/
def stepDetection (retired : List BBox) (frame_idx : ℕ) (s : DetectState)
    (mark : DetectedMark) : DetectState :=
  let bbox := markBbox mark
  if retired.any (fun r => (0.4 : ℚ) < bboxOverlapRatio bbox r) then s
  else
    let best := bestMatch bbox s.active s.matched
    if 0 ≤ best.1 ∧ (0.4 : ℚ) < best.2 then
      let idx := best.1.toNat
      { filteredIdx := s.filteredIdx ++ [idx]
        active := s.active.modify
          (fun tm => { tm with mark := mark, bbox := bbox, last_seen_frame := frame_idx }) idx
        matched := insert idx s.matched }
    else
      { filteredIdx := s.filteredIdx ++ [s.active.length]
        active := s.active ++
          [{ id := s.active.length, mark := mark, bbox := bbox,
             last_seen_frame := frame_idx }]
        matched := s.matched }

/-- Tracker state carried across frames: active tracked marks and the bboxes
of retired marks. -/
structure TrackState where
  active : List TrackedMark
  retired : List BBox

/-- The detection loop of one frame of the reverse pass: fold
`stepDetection` over the frame's detections. -/
def detPhase (st : TrackState) (frame_idx : ℕ) (marks : List DetectedMark) :
    DetectState :=
  marks.foldl (stepDetection st.retired frame_idx)
    { filteredIdx := [], active := st.active, matched := ∅ }

/-- One frame of the reverse pass: process every detection, materialise the
kept marks (they alias entries of the post-loop `active`, as the Python
object references do), then retire every active mark unmatched for more than
3 processed frames, keeping only its bbox. -/
def processFrame (st : TrackState) (frame_idx : ℕ) (marks : List DetectedMark) :
    TrackState × List TrackedMark :=
  let ds := detPhase st frame_idx marks
  let filtered := ds.filteredIdx.filterMap (fun i => ds.active[i]?)
  let retiredNow := ds.active.filter (fun tm => 3 < frame_idx - tm.last_seen_frame)
  let stillActive := ds.active.filter (fun tm => ¬ 3 < frame_idx - tm.last_seen_frame)
  (⟨stillActive, st.retired ++ retiredNow.map (·.bbox)⟩, filtered)

/-- Run the tracker over a list of (frame index, detections) frames; used to
state reachability properties of the reverse pass. -/
def processFrames (st : TrackState) : List (ℕ × List DetectedMark) → TrackState
  | [] => st
  | f :: fs => processFrames (processFrame st f.1 f.2).1 fs

/-- `NamedArea` from `models.py`: a named rectangle in image coordinates. -/
structure NamedArea where
  name : String
  x : ℤ
  y : ℤ
  width : ℤ
  height : ℤ
  deriving Repr, DecidableEq

/-- The center-in-rectangle test of `find_marks_in_areas` /
`count_marks_in_areas`. -/
def inArea (area : NamedArea) (m : DetectedMark) : Bool :=
  decide ((area.x : ℚ) ≤ m.center_x ∧ m.center_x ≤ (area.x : ℚ) + area.width ∧
    (area.y : ℚ) ≤ m.center_y ∧ m.center_y ≤ (area.y : ℚ) + area.height)

/-- `find_marks_in_areas`: group tracked marks by named area (center-point
containment).  The Python `dict` keyed by `area.name` is modelled as the
association list in `named_areas` order; the two agree whenever the area
names are pairwise distinct, which the data model requires. -/
def findMarksInAreas (marks : List TrackedMark) (named_areas : List NamedArea) :
    List (String × List TrackedMark) :=
  named_areas.map (fun area => (area.name, marks.filter (fun tm => inArea area tm.mark)))

/-- `_LoadAndDetectResult`: one sampled frame's detection output.
`marks` is `Option` because the dataclass field is `list | None`. -/
structure LoadAndDetectResult where
  image_index : ℕ
  timestamp : ℚ
  marks : Option (List DetectedMark)
  base_temp_c : ℚ
  deriving Repr, DecidableEq

/-- `_BatchPoint`: one sampled frame's tracked marks grouped by area. -/
structure BatchPoint where
  timestamp : ℚ
  base_temp_c : ℚ
  marks_in_areas : List (String × List TrackedMark)
  image_index : ℕ

/-- Insert `x` after every element `y` with `lt y x`.  Used to model
Python's stable `list.sort`. -/
def stableInsert (lt : α → α → Bool) (x : α) : List α → List α
  | [] => [x]
  | y :: ys => if lt y x then y :: stableInsert lt x ys else x :: y :: ys

/-- Stable insertion sort with strict comparison `lt` (ascending for
`lt = (· < ·)` on the key); equal-key elements keep their original order,
as Python's `list.sort` guarantees. -/
def stableSort (lt : α → α → Bool) : List α → List α
  | [] => []
  | x :: xs => stableInsert lt x (stableSort lt xs)

/-- `_build_batch_points_from_results`: sort results by descending
timestamp, run the tracking pass over them (frame indices enumerate the
reverse-chronological order), group each frame's kept marks by area, then
re-sort the emitted points by ascending timestamp. -/
def buildBatchPointsFromResults (named_areas : List NamedArea)
    (results : List LoadAndDetectResult) (start_ts : ℚ) : List BatchPoint :=
  let sorted := stableSort (fun a b => b.timestamp < a.timestamp) results
  let step := fun (acc : TrackState × List BatchPoint) (p : ℕ × LoadAndDetectResult) =>
    let res := processFrame acc.1 p.1 (p.2.marks.getD [])
    (res.1, acc.2 ++ [{ timestamp := p.2.timestamp - start_ts
                        base_temp_c := p.2.base_temp_c
                        marks_in_areas := findMarksInAreas res.2 named_areas
                        image_index := p.2.image_index }])
  let res := sorted.enum.foldl step (⟨[], []⟩, [])
  stableSort (fun a b => a.timestamp < b.timestamp) res.2

/-- `WANTED_PERCENTILES` from `analysis_service.py`. -/
def WANTED_PERCENTILES : List ℕ := [10, 50, 90]

/-- `AreaPStatPoint`: a percentile-crossing snapshot for one area.  Field
names follow the data model; `_build_batch_result` constructs it
positionally as `AreaPStatPoint(timestamp, base_temp_c, count_cur,
count_max, frame_index)`. -/
structure AreaPStatPoint where
  timestamp : ℚ
  base_temp_c : ℚ
  count_cur : ℕ
  count_max : ℕ
  frame_index : ℕ
  deriving Repr, DecidableEq

/-- `BatchAnalysisResult`: `dict`s keyed by area name (resp. percentile)
are modelled as total functions. -/
structure BatchAnalysisResult where
  timestamps : List ℚ
  area_counts : String → List ℕ
  percentile_for_area : ℕ → String → Option AreaPStatPoint

/-- The set of ids of a list of tracked marks
(`{mark.id for mark in marks}` as Python's `set.update` builds it). -/
def markIds (ms : List TrackedMark) : Finset ℕ := (ms.map (·.id)).toFinset

/-- State of the `_get_area_max_counts` loop. -/
structure MaxCountState where
  mark_ids_in_area : String → Finset ℕ
  area_max_counts : String → ℕ

/-- One `(area_name, marks)` entry of `_get_area_max_counts`'s inner loop:
add the marks' ids to the area's id set and raise the running maximum when
the set grew past it. -/
def maxCountStep (s : MaxCountState) (entry : String × List TrackedMark) :
    MaxCountState :=
  let area_name := entry.1
  let area_ids := s.mark_ids_in_area area_name ∪ markIds entry.2
  let amax := s.area_max_counts area_name
  { mark_ids_in_area := fun n =>
      if n = area_name then area_ids else s.mark_ids_in_area n
    area_max_counts :=
      if amax < area_ids.card then
        fun n => if n = area_name then area_ids.card else s.area_max_counts n
      else s.area_max_counts }

/-- `_get_area_max_counts`: per area, the running maximum of the size of the
union of tracked-mark ids ever seen in that area. -/
def getAreaMaxCounts (points : List BatchPoint) : String → ℕ :=
  (points.foldl (fun (s : MaxCountState) p => p.marks_in_areas.foldl maxCountStep s)
    { mark_ids_in_area := fun _ => ∅, area_max_counts := fun _ => 0 }).area_max_counts

/-- The `while` loop of `_build_batch_result`: pop leading thresholds that
`cur_pct` reaches or exceeds; returns the remaining stack and the popped
thresholds in pop order. -/
def popPercentiles (cur_pct : ℕ) : List ℕ → List ℕ × List ℕ
  | [] => ([], [])
  | t :: rest =>
    if t ≤ cur_pct then
      let res := popPercentiles cur_pct rest
      (res.1, t :: res.2)
    else (t :: rest, [])

/-- State of the `_build_batch_result` loop. -/
structure AggState where
  area_counts_res : String → List ℕ
  mark_ids_in_area : String → Finset ℕ
  percentiles_stack : String → List ℕ
  percentile_for_area : ℕ → String → Option AreaPStatPoint

/-- One `(area_name, marks)` entry of `_build_batch_result`'s inner loop.
When the area's maximum is zero, append `0` and stop (the division is never
reached).  Otherwise grow the id union, compute
`cur_pct = int(cur / amax * 100)` — in exact arithmetic the floor
`cur * 100 / amax` — pop every reached percentile threshold, recording a
snapshot of this point for each, and append `cur_pct`. -/
def aggStep (area_max_counts : String → ℕ) (p : BatchPoint) (s : AggState)
    (entry : String × List TrackedMark) : AggState :=
  let area_name := entry.1
  let amax := area_max_counts area_name
  if amax = 0 then
    { s with area_counts_res := fun n =>
        if n = area_name then s.area_counts_res n ++ [0] else s.area_counts_res n }
  else
    let area_ids := s.mark_ids_in_area area_name ∪ markIds entry.2
    let cur := area_ids.card
    let cur_pct := cur * 100 / amax
    let pop := popPercentiles cur_pct (s.percentiles_stack area_name)
    { area_counts_res := fun n =>
        if n = area_name then s.area_counts_res n ++ [cur_pct] else s.area_counts_res n
      mark_ids_in_area := fun n =>
        if n = area_name then area_ids else s.mark_ids_in_area n
      percentiles_stack := fun n =>
        if n = area_name then pop.1 else s.percentiles_stack n
      percentile_for_area := fun pct n =>
        if n = area_name ∧ pct ∈ pop.2 then
          some ⟨p.timestamp, p.base_temp_c, cur, amax, p.image_index⟩
        else s.percentile_for_area pct n }

/-- The initial state of `_build_batch_result`'s loop: empty per-area count
lists and id sets, a full percentile stack per area, no snapshots. -/
def aggInit : AggState :=
  { area_counts_res := fun _ => []
    mark_ids_in_area := fun _ => ∅
    percentiles_stack := fun _ => WANTED_PERCENTILES
    percentile_for_area := fun _ _ => none }

/-- `_build_batch_result`. -/
def buildBatchResult (points : List BatchPoint) : BatchAnalysisResult :=
  let area_max_counts := getAreaMaxCounts points
  let final := points.foldl
    (fun s p => p.marks_in_areas.foldl (aggStep area_max_counts p) s) aggInit
  { timestamps := points.map (·.timestamp)
    area_counts := final.area_counts_res
    percentile_for_area := final.percentile_for_area }

/-- A rendered frame as the batch pipeline consumes it.  The image buffer
itself is only ever passed to the external OpenCV thresholding / contour
stage (a pure function of the image, the base point and the tolerance) and
to `get_temp_at_img`; the model records those two stages' outputs:
`contours` feeds the detection loop, `base_temp_c` is the base-point
temperature. -/
structure Frame where
  ts : ℚ
  contours : List Contour
  base_temp_c : ℚ

/-- The recording reader as the batch pipeline consumes it:
`frame_count`, `ts_start`, and random-access `read_frame` which may fail. -/
structure Reader where
  frame_count : ℕ
  ts_start : ℚ
  read_frame : ℕ → Option Frame

/-- The slice of `AppState` the batch pipeline reads and writes. -/
structure AppState where
  base_x : Option ℤ
  base_y : Option ℤ
  min_area : ℚ
  max_area : ℚ
  min_circularity : ℚ
  batch_sampling_rate : ℤ
  named_areas : List NamedArea
  reader : Option Reader
  batch_result : Option BatchAnalysisResult

/-- `_load_and_detect`: read the frame (raising — modelled as `Except.error`
— when the reader returns `None`), detect marks, and look up the base-point
temperature. -/
def loadAndDetect (st : AppState) (r : Reader) (image_index : ℕ) :
    Except String LoadAndDetectResult :=
  match r.read_frame image_index with
  | none => .error ("Failed to load frame " ++ toString image_index)
  | some frame =>
    .ok { image_index := image_index
          timestamp := frame.ts
          marks := some (detectColoredMarks frame.contours
            st.min_area st.max_area st.min_circularity)
          base_temp_c := frame.base_temp_c }

/-- `range(0, frame_count, sampling_rate)` for `sampling_rate > 0`. -/
def indicesToProcess (frame_count sampling_rate : ℕ) : List ℕ :=
  List.range' 0 ((frame_count + sampling_rate - 1) / sampling_rate) sampling_rate

/-- Collect one result per dispatched index; the first failure propagates
(`fut.result()` re-raises the worker's exception). -/
def collectResultsLoop (f : ℕ → Except String LoadAndDetectResult) :
    List ℕ → Except String (List LoadAndDetectResult)
  | [] => .ok []
  | i :: rest =>
    match f i with
    | .error e => .error e
    | .ok r =>
      match collectResultsLoop f rest with
      | .error e => .error e
      | .ok rs => .ok (r :: rs)

/-- The collection loop of `_collect_batch_points`: one `_load_and_detect`
task per sampled index; any failure propagates and aborts the batch.  The
worker pool completes tasks in nondeterministic order, but the results are
re-sorted by timestamp before any order-sensitive processing, so the model
collects them in dispatch order. -/
def collectResults (st : AppState) (r : Reader) (sampling_rate : ℕ) :
    Except String (List LoadAndDetectResult) :=
  collectResultsLoop (loadAndDetect st r) (indicesToProcess r.frame_count sampling_rate)

/-- `_collect_batch_points`. -/
def collectBatchPoints (st : AppState) (r : Reader) (sampling_rate : ℕ) :
    Except String (List BatchPoint) :=
  match collectResults st r sampling_rate with
  | .error e => .error e
  | .ok results =>
    .ok (buildBatchPointsFromResults st.named_areas results r.ts_start)

/-- `run_batch_analysis` as a state transformer: precondition failures
return the state unchanged; a frame-read failure propagates as an error (in
Python the `RuntimeError` escapes `run_batch_analysis`, leaving the state
unchanged); otherwise the new `BatchAnalysisResult` is stored. -/
def runBatchAnalysis (st : AppState) : Except String AppState :=
  if st.base_x = none ∨ st.base_y = none then .ok st
  else if st.named_areas = [] then .ok st
  else
    match st.reader with
    | none => .ok st
    | some r =>
      if r.frame_count = 0 then .ok st
      else
        let sampling_rate := (max 1 (min 100 st.batch_sampling_rate)).toNat
        match collectBatchPoints st r sampling_rate with
        | .error e => .error e
        | .ok points =>
          .ok { st with batch_result := some (buildBatchResult points) }

/-! ## Per-area views of the aggregation loops

`_build_batch_result` and `_get_area_max_counts` update their dicts only at
the key of the entry being processed, so when the area names are pairwise
distinct the computation decomposes into independent per-area scans.  The
following definitions name those scans; lemmas below prove the
decomposition. -/

/-- The per-area slice of `AggState`. -/
structure AreaAgg where
  counts : List ℕ
  ids : Finset ℕ
  stack : List ℕ
  snap : ℕ → Option AreaPStatPoint

/-- The per-area slice of `MaxCountState`. -/
structure AreaMax where
  ids : Finset ℕ
  amax : ℕ

/-- Project `AggState` onto one area name. -/
def projAgg (s : AggState) (n : String) : AreaAgg :=
  ⟨s.area_counts_res n, s.mark_ids_in_area n, s.percentiles_stack n,
    fun pct => s.percentile_for_area pct n⟩

/-- Project `MaxCountState` onto one area name. -/
def projMax (s : MaxCountState) (n : String) : AreaMax :=
  ⟨s.mark_ids_in_area n, s.area_max_counts n⟩

/-- The marks a point holds for area name `n` (the value of the
`marks_in_areas` dict at `n`; flattened over the association list, which is a
single list when `n` occurs exactly once among the keys). -/
def areaMarksAt (p : BatchPoint) (n : String) : List TrackedMark :=
  ((p.marks_in_areas.filter (fun e => e.1 = n)).map Prod.snd).flatten

/-- What one `(area_name, marks)` entry of `_build_batch_result` does to its
own area's slice of the state. -/
def areaStep (amax : ℕ) (p : BatchPoint) (ms : List TrackedMark) (s : AreaAgg) :
    AreaAgg :=
  if amax = 0 then { s with counts := s.counts ++ [0] }
  else
    let ids := s.ids ∪ markIds ms
    let cur := ids.card
    let cur_pct := cur * 100 / amax
    let pop := popPercentiles cur_pct s.stack
    { counts := s.counts ++ [cur_pct]
      ids := ids
      stack := pop.1
      snap := fun pct =>
        if pct ∈ pop.2 then
          some ⟨p.timestamp, p.base_temp_c, cur, amax, p.image_index⟩
        else s.snap pct }

/-- The per-area scan underlying `_build_batch_result`. -/
def areaScan (amax : ℕ) (n : String) (s : AreaAgg) : List BatchPoint → AreaAgg
  | [] => s
  | p :: ps => areaScan amax n (areaStep amax p (areaMarksAt p n) s) ps

/-- What one `(area_name, marks)` entry of `_get_area_max_counts` does to its
own area's slice of the state. -/
def areaMaxStep (ms : List TrackedMark) (s : AreaMax) : AreaMax :=
  let ids := s.ids ∪ markIds ms
  if s.amax < ids.card then ⟨ids, ids.card⟩ else ⟨ids, s.amax⟩

/-- The per-area scan underlying `_get_area_max_counts`. -/
def areaMaxScan (n : String) (s : AreaMax) : List BatchPoint → AreaMax
  | [] => s
  | p :: ps => areaMaxScan n (areaMaxStep (areaMarksAt p n) s) ps

/-- The union of all mark ids seen for area `n`, starting from `ids0`. -/
def idsAfter (n : String) (ids0 : Finset ℕ) : List BatchPoint → Finset ℕ
  | [] => ids0
  | p :: ps => idsAfter n (ids0 ∪ markIds (areaMarksAt p n)) ps

/-- The percent values `_build_batch_result` appends for one area with a
nonzero maximum: the running-union cardinality, scaled by `100 / amax` with
flooring. -/
def pctList (amax : ℕ) (n : String) (ids0 : Finset ℕ) :
    List BatchPoint → List ℕ
  | [] => []
  | p :: ps =>
    let ids := ids0 ∪ markIds (areaMarksAt p n)
    (ids.card * 100 / amax) :: pctList amax n ids ps

/-- The first chronological point at which the running percent for area `n`
reaches or exceeds threshold `t`, together with the running-union
cardinality there. -/
def firstCross (amax t : ℕ) (n : String) (ids0 : Finset ℕ) :
    List BatchPoint → Option (BatchPoint × ℕ)
  | [] => none
  | p :: ps =>
    let ids := ids0 ∪ markIds (areaMarksAt p n)
    if t ≤ ids.card * 100 / amax then some (p, ids.card)
    else firstCross amax t n ids ps

/-- Points whose per-area grouping was generated against `areas` (as the
pipeline's `find_marks_in_areas` guarantees): each point's `marks_in_areas`
keys are exactly the area names, in order. -/
abbrev WellFormedPoints (areas : List NamedArea) (points : List BatchPoint) : Prop :=
  ∀ p ∈ points, p.marks_in_areas.map Prod.fst = areas.map (fun a => a.name)

/-! ## Concrete example inputs used by counterexamples and witnesses -/

/-- A contour that passes every filter (area 1 within `[0, 100]`, perimeter
1, circularity `4π > 0`), has at least 5 points, and whose ellipse fit
returned full axes `(2, 4)` — axes in ascending order, which
`cv2.fitEllipse`'s contract does not forbid. -/
def cexContour : Contour :=
  { area := 1, perimeter := 1, pointCount := 5
    fitCenterX := 0, fitCenterY := 0, fitAxes1 := 2, fitAxes2 := 4
    fitAngle := 0
    mecCenterX := 0, mecCenterY := 0, mecRadius := 1 }

/-- A detection at center `(10, 10)` with unit semi-axes. -/
def markA : DetectedMark := ⟨10, 10, 1, 1, 0⟩

/-- A detection at center `(100, 100)` with unit semi-axes, far from
`markA`. -/
def markB : DetectedMark := ⟨100, 100, 1, 1, 0⟩

/-- A single named area covering the whole image. -/
def areaAll : List NamedArea := [⟨"ALL", 0, 0, 200, 200⟩]

/-- Batch results realising an id reuse: `markA` is seen only in the
chronologically last frame (processed first in the reverse pass), four empty
frames retire it, and then `markB` appears far away in the chronologically
first frame. -/
def idReuseResults : List LoadAndDetectResult :=
  [ ⟨0, 10, some [markA], 20⟩
  , ⟨1, 9, some [], 20⟩
  , ⟨2, 8, some [], 20⟩
  , ⟨3, 7, some [], 20⟩
  , ⟨4, 6, some [], 20⟩
  , ⟨5, 5, some [markB], 20⟩ ]

/-- A tracked mark carrying only an id (geometry irrelevant to
aggregation). -/
def tmOfId (i : ℕ) : TrackedMark := ⟨i, ⟨0, 0, 0, 0, 0⟩, ⟨0, 0, 0, 0⟩, 0⟩

/-- A batch point for area `"A"` at time/frame `t` holding the given ids. -/
def ptA (t : ℕ) (idsList : List ℕ) : BatchPoint :=
  ⟨(t : ℚ), 20, [("A", idsList.map tmOfId)], t⟩

/-- The spec's percentile test scenario: cumulative distinct-id counts
`[3, 5, 5, 7, 9, 10, 10, 10, 10, 10]` for area `"A"`, so `area_max = 10`. -/
def scenarioPoints : List BatchPoint :=
  [ ptA 0 [0, 1, 2]
  , ptA 1 [3, 4]
  , ptA 2 []
  , ptA 3 [5, 6]
  , ptA 4 [7, 8]
  , ptA 5 [9]
  , ptA 6 []
  , ptA 7 []
  , ptA 8 []
  , ptA 9 [] ]

/-- The named-area list for the percentile scenario. -/
def scenarioAreas : List NamedArea := [⟨"A", 0, 0, 200, 200⟩]

/-- A one-frame reader whose every read fails. -/
def failingReader : Reader := ⟨1, 0, fun _ => none⟩

/-- A one-frame reader whose reads always succeed (a frame with no
contours). -/
def okReader : Reader := ⟨1, 0, fun _ => some ⟨0, [], 20⟩⟩

/-- An app state satisfying every batch precondition, wired to
`failingReader`. -/
def failingState : AppState :=
  ⟨some 0, some 0, 200, 200, 1/2, 5, [⟨"A", 0, 0, 1, 1⟩], some failingReader, none⟩

/-- The same app state wired to `okReader`. -/
def okState : AppState :=
  ⟨some 0, some 0, 200, 200, 1/2, 5, [⟨"A", 0, 0, 1, 1⟩], some okReader, none⟩

/-! ## Claim theorems -/

/-- **C10.** For every pair of bounding boxes, `_bbox_overlap_ratio` returns
a value in `[0, 1]`; a pair with empty intersection or nonpositive extent
(the intersection width or height is `≤ 0`), or whose smaller box area is
`≤ 0`, yields exactly `0`. -/
theorem bboxOverlapRatio_unit_interval (a b : BBox) :
    0 ≤ bboxOverlapRatio a b ∧ bboxOverlapRatio a b ≤ 1 ∧
      ((min a.x2 b.x2 - max a.x1 b.x1 ≤ 0 ∨ min a.y2 b.y2 - max a.y1 b.y1 ≤ 0) →
        bboxOverlapRatio a b = 0) ∧
      (min (max 0 (a.x2 - a.x1) * max 0 (a.y2 - a.y1))
          (max 0 (b.x2 - b.x1) * max 0 (b.y2 - b.y1)) ≤ 0 →
        bboxOverlapRatio a b = 0) := by
  simp only [bboxOverlapRatio]
  split_ifs with h1 h2
  · exact ⟨le_rfl, by norm_num, fun _ => rfl, fun _ => rfl⟩
  · exact ⟨le_rfl, by norm_num, fun _ => rfl, fun _ => rfl⟩
  · push_neg at h1 h2
    obtain ⟨hw, hh⟩ := h1
    have hminx := min_le_left a.x2 b.x2
    have hminx2 := min_le_right a.x2 b.x2
    have hmaxx := le_max_left a.x1 b.x1
    have hmaxx2 := le_max_right a.x1 b.x1
    have hminy := min_le_left a.y2 b.y2
    have hminy2 := min_le_right a.y2 b.y2
    have hmaxy := le_max_left a.y1 b.y1
    have hmaxy2 := le_max_right a.y1 b.y1
    have hwa : min a.x2 b.x2 - max a.x1 b.x1 ≤ max 0 (a.x2 - a.x1) := by
      have := le_max_right (0 : ℚ) (a.x2 - a.x1); linarith
    have hha : min a.y2 b.y2 - max a.y1 b.y1 ≤ max 0 (a.y2 - a.y1) := by
      have := le_max_right (0 : ℚ) (a.y2 - a.y1); linarith
    have hwb : min a.x2 b.x2 - max a.x1 b.x1 ≤ max 0 (b.x2 - b.x1) := by
      have := le_max_right (0 : ℚ) (b.x2 - b.x1); linarith
    have hhb : min a.y2 b.y2 - max a.y1 b.y1 ≤ max 0 (b.y2 - b.y1) := by
      have := le_max_right (0 : ℚ) (b.y2 - b.y1); linarith
    refine ⟨by positivity, ?_, ?_, ?_⟩
    · rw [div_le_one h2]
      refine le_min ?_ ?_
      · exact mul_le_mul hwa hha hh.le (le_max_left 0 _)
      · exact mul_le_mul hwb hhb hh.le (le_max_left 0 _)
    · intro hc
      exact (hc.elim (fun hcw => absurd hcw (not_le.mpr hw))
        (fun hch => absurd hch (not_le.mpr hh)))
    · intro hd
      exact absurd hd (not_le.mpr h2)

/-- **C8.** The detection loop rejects a contour iff its area is below
`min_area` or above `max_area`, its perimeter is zero, or its circularity
`4π·area/perimeter²` is below `min_circularity`; a kept contour with at
least 5 points yields the ellipse-fit mark with semi-axes the full fitted
axes halved, a kept contour with fewer than 5 points yields the
minimum-enclosing-circle mark with `axis_a = axis_b = radius` and
`angle = 0`; the detected list is exactly the kept contours' marks. -/
theorem detect_filter_and_branch_spec (ma mx mc : ℚ) (contours : List Contour)
    (c : Contour) (m : DetectedMark) :
    (contourKept ma mx mc c = false ↔
      c.area < ma ∨ mx < c.area ∨ c.perimeter = 0 ∨
        4 * npPi * c.area / (c.perimeter * c.perimeter) < mc) ∧
    (5 ≤ c.pointCount →
      contourMark c =
        { center_x := c.fitCenterX, center_y := c.fitCenterY
          axis_a := c.fitAxes1 / 2, axis_b := c.fitAxes2 / 2
          angle := c.fitAngle }) ∧
    (c.pointCount < 5 →
      contourMark c =
        { center_x := c.mecCenterX, center_y := c.mecCenterY
          axis_a := c.mecRadius, axis_b := c.mecRadius, angle := 0 }) ∧
    (m ∈ detectColoredMarks contours ma mx mc ↔
      ∃ c' ∈ contours, contourKept ma mx mc c' = true ∧ m = contourMark c') := by
  refine ⟨?_, ?_, ?_, ?_⟩
  · unfold contourKept
    split_ifs with h1 h2 h3
    · simp [h1]
    · simp [h1, h2]
    · simp [h1, h2, h3]
    · simp [h1, h2, h3, not_le]
  · intro h5
    unfold contourMark
    rw [if_pos h5]
  · intro h5
    unfold contourMark
    rw [if_neg (by omega)]
  · simp only [detectColoredMarks, List.mem_map, List.mem_filter]
    constructor
    · rintro ⟨c', ⟨hc', hk⟩, hm⟩
      exact ⟨c', hc', hk, hm.symm⟩
    · rintro ⟨c', hc', hk, hm⟩
      exact ⟨c', ⟨hc', hk⟩, hm.symm⟩

/-- Witness for `bboxOverlapRatio_unit_interval` at two disjoint boxes. -/
theorem bboxOverlapRatio_unit_interval_witness :
    bboxOverlapRatio ⟨0, 0, 2, 2⟩ ⟨5, 5, 7, 7⟩ = 0 :=
  (bboxOverlapRatio_unit_interval ⟨0, 0, 2, 2⟩ ⟨5, 5, 7, 7⟩).2.2.1
    (Or.inl (by norm_num))

/-- Witness for `detect_filter_and_branch_spec`: the ellipse branch on a
concrete kept 5-point contour. -/
theorem detect_filter_and_branch_spec_witness :
    contourMark cexContour =
      { center_x := cexContour.fitCenterX, center_y := cexContour.fitCenterY
        axis_a := cexContour.fitAxes1 / 2, axis_b := cexContour.fitAxes2 / 2
        angle := cexContour.fitAngle } :=
  (detect_filter_and_branch_spec 0 100 0 [] cexContour ⟨0, 0, 0, 0, 0⟩).2.1
    (by decide)

/-- **C5 counterexample.** The claim "every `DetectedMark` returned by
`detect_colored_marks` satisfies `axis_a ≥ axis_b ≥ 0`" fails: on a kept
5-point contour whose ellipse fit returned full axes `(2, 4)` — an ordering
`cv2.fitEllipse`'s contract does not rule out — the emitted mark has
`axis_a = 1 < axis_b = 2`. -/
theorem detect_axis_order_counterexample :
    ¬ ∀ m ∈ detectColoredMarks [cexContour] 0 100 0,
      m.axis_b ≤ m.axis_a ∧ 0 ≤ m.axis_b := by
  have hval : detectColoredMarks [cexContour] 0 100 0 =
      [{ center_x := 0, center_y := 0, axis_a := 1, axis_b := 2, angle := 0 }] := by
    norm_num [detectColoredMarks, contourKept, contourMark, cexContour, npPi]
  intro hall
  have hm : (⟨0, 0, 1, 2, 0⟩ : DetectedMark) ∈ detectColoredMarks [cexContour] 0 100 0 := by
    rw [hval]
    exact List.mem_singleton_self _
  obtain ⟨hle, _⟩ := hall _ hm
  norm_num at hle

/-- **C5 (amended).** Every fallback (fewer than 5 points) mark satisfies
`axis_a = axis_b = radius ≥ 0` provided the enclosing-circle radius is
nonnegative; an ellipse-branch mark satisfies `axis_a ≥ axis_b ≥ 0` only
under the additional assumption — not enforced by the code — that the fit
returns full axes with `axes[0] ≥ axes[1] ≥ 0`. -/
theorem detect_axis_invariant (ma mx mc : ℚ) (contours : List Contour)
    (hfit : ∀ c ∈ contours, 5 ≤ c.pointCount →
      c.fitAxes2 ≤ c.fitAxes1 ∧ 0 ≤ c.fitAxes2)
    (hmec : ∀ c ∈ contours, c.pointCount < 5 → 0 ≤ c.mecRadius) :
    ∀ m ∈ detectColoredMarks contours ma mx mc,
      m.axis_b ≤ m.axis_a ∧ 0 ≤ m.axis_b := by
  intro m hm
  simp only [detectColoredMarks, List.mem_map, List.mem_filter] at hm
  obtain ⟨c, ⟨hc, _⟩, hm⟩ := hm
  subst hm
  unfold contourMark
  split_ifs with h5
  · obtain ⟨h1, h2⟩ := hfit c hc h5
    exact ⟨by dsimp; linarith, by dsimp; linarith⟩
  · exact ⟨le_rfl, hmec c hc (by omega)⟩

/-- Witness for `detect_axis_invariant` at a concrete contour whose fit
axes are in descending order; its emitted mark is `⟨0, 0, 2, 1, 0⟩`. -/
theorem detect_axis_invariant_witness :
    (⟨0, 0, 2, 1, 0⟩ : DetectedMark).axis_b ≤
        (⟨0, 0, 2, 1, 0⟩ : DetectedMark).axis_a ∧
      0 ≤ (⟨0, 0, 2, 1, 0⟩ : DetectedMark).axis_b :=
  detect_axis_invariant 0 100 0 [⟨1, 1, 5, 0, 0, 4, 2, 0, 0, 0, 1⟩]
    (by
      intro c hc h5
      rw [List.mem_singleton] at hc
      subst hc
      norm_num)
    (by
      intro c hc h5
      rw [List.mem_singleton] at hc
      subst hc
      norm_num at h5)
    ⟨0, 0, 2, 1, 0⟩
    (by norm_num [detectColoredMarks, contourKept, contourMark, npPi])

/-- Every active mark surviving a frame was seen within the last 3 processed
frames. -/
theorem processFrame_active_fresh (st : TrackState) (frame_idx : ℕ)
    (marks : List DetectedMark) :
    ∀ tm ∈ ((processFrame st frame_idx marks).1).active,
      frame_idx - tm.last_seen_frame ≤ 3 := by
  intro tm htm
  simp only [processFrame] at htm
  rw [List.mem_filter] at htm
  have h2 := htm.2
  simp only [decide_eq_true_eq] at h2
  omega

/-- A mark that is stale after the detection phase (unmatched for more than
3 processed frames) is dropped from `active` and its bbox is appended to
`retired`. -/
theorem processFrame_retires (st : TrackState) (frame_idx : ℕ)
    (marks : List DetectedMark) :
    ∀ tm ∈ (detPhase st frame_idx marks).active,
      3 < frame_idx - tm.last_seen_frame →
      tm ∉ ((processFrame st frame_idx marks).1).active ∧
        tm.bbox ∈ ((processFrame st frame_idx marks).1).retired := by
  intro tm htm hstale
  constructor
  · intro hmem
    simp only [processFrame] at hmem
    rw [List.mem_filter] at hmem
    have h2 := hmem.2
    simp only [decide_eq_true_eq] at h2
    omega
  · simp only [processFrame]
    rw [List.mem_append]
    right
    rw [List.mem_map]
    refine ⟨tm, ?_, rfl⟩
    rw [List.mem_filter]
    exact ⟨htm, by simp only [decide_eq_true_eq]; omega⟩

/-- The retired list never shrinks across frames of the reverse pass. -/
theorem processFrames_retired_grows (st : TrackState)
    (fs : List (ℕ × List DetectedMark)) :
    st.retired <+: (processFrames st fs).retired := by
  induction fs generalizing st with
  | nil => exact List.prefix_refl _
  | cons f fs ih =>
    refine List.IsPrefix.trans ?_ (ih (processFrame st f.1 f.2).1)
    simp only [processFrame]
    exact List.prefix_append _ _

/-- A detection overlapping a retired bbox with ratio above `0.4` is
discarded: the detection step leaves the state — kept-mark list, active
marks, matched set — unchanged. -/
theorem stepDetection_skip_of_retired (retired : List BBox) (frame_idx : ℕ)
    (s : DetectState) (mark : DetectedMark)
    (hex : ∃ rb ∈ retired, (0.4 : ℚ) < bboxOverlapRatio (markBbox mark) rb) :
    stepDetection retired frame_idx s mark = s := by
  obtain ⟨rb, hrb, hlt⟩ := hex
  unfold stepDetection
  have hany : (retired.any fun r =>
      decide ((0.4 : ℚ) < bboxOverlapRatio (markBbox mark) r)) = true :=
    List.any_eq_true.mpr ⟨rb, hrb, decide_eq_true hlt⟩
  simp only [hany, if_true]

/-- **C4.** Once an active `TrackedMark` has gone unmatched for more than 3
processed frames of the reverse pass it is moved out of `active` (so it can
never match again; matching scans only `active`) and its bbox is added to
`retired_bboxes`; the retired list only grows from then on; and any
detection whose bbox overlaps a retired bbox with ratio above `0.4` — in the
current frame state or any later reachable one — is discarded entirely:
never matched, never allocated an id, never emitted in the frame's output
list. -/
theorem tracking_retirement_spec :
    (∀ st frame_idx marks, ∀ tm ∈ ((processFrame st frame_idx marks).1).active,
        frame_idx - tm.last_seen_frame ≤ 3) ∧
    (∀ st frame_idx marks, ∀ tm ∈ (detPhase st frame_idx marks).active,
        3 < frame_idx - tm.last_seen_frame →
        tm ∉ ((processFrame st frame_idx marks).1).active ∧
          tm.bbox ∈ ((processFrame st frame_idx marks).1).retired) ∧
    (∀ st fs, st.retired <+: (processFrames st fs).retired) ∧
    (∀ retired frame_idx s mark,
        (∃ rb ∈ retired, (0.4 : ℚ) < bboxOverlapRatio (markBbox mark) rb) →
        stepDetection retired frame_idx s mark = s) ∧
    (∀ st fs frame_idx s mark rb, rb ∈ st.retired →
        (0.4 : ℚ) < bboxOverlapRatio (markBbox mark) rb →
        stepDetection (processFrames st fs).retired frame_idx s mark = s) :=
  ⟨processFrame_active_fresh,
   processFrame_retires,
   processFrames_retired_grows,
   stepDetection_skip_of_retired,
   fun st fs frame_idx s mark rb hrb hlt =>
     stepDetection_skip_of_retired _ frame_idx s mark
       ⟨rb, (processFrames_retired_grows st fs).subset hrb, hlt⟩⟩

/-- Witness for `tracking_retirement_spec`: with `markA`'s own bbox retired,
the detection step on `markA` (overlap ratio `1 > 0.4`) leaves a concrete
state unchanged, both directly and after zero further frames. -/
theorem tracking_retirement_spec_witness :
    stepDetection [⟨9, 9, 11, 11⟩] 5 ⟨[], [], ∅⟩ markA = ⟨[], [], ∅⟩ ∧
    stepDetection (processFrames ⟨[], [⟨9, 9, 11, 11⟩]⟩ []).retired 5
      ⟨[], [], ∅⟩ markA = ⟨[], [], ∅⟩ :=
  ⟨tracking_retirement_spec.2.2.2.1 [⟨9, 9, 11, 11⟩] 5 ⟨[], [], ∅⟩ markA
      ⟨⟨9, 9, 11, 11⟩, by simp, by norm_num [markBbox, markA, bboxOverlapRatio]⟩,
   tracking_retirement_spec.2.2.2.2 ⟨[], [⟨9, 9, 11, 11⟩]⟩ [] 5 ⟨[], [], ∅⟩ markA
      ⟨9, 9, 11, 11⟩ (by simp)
      (by norm_num [markBbox, markA, bboxOverlapRatio])⟩

/-- **C1 (code bug).** Evaluating the tracker on `idReuseResults`: `markA`
(seen only in the chronologically last frame, reverse-pass frame 0) is
allocated id 0 and retired after four unmatched frames; `markB`, far away in
the chronologically first frame, is then allocated `id = len(active) = 0`
again — two distinct allocations share id 0, refuting per-run id
uniqueness. -/
theorem trackedMark_id_reuse :
    (buildBatchPointsFromResults areaAll idReuseResults 0).map
      (fun p => p.marks_in_areas.map
        (fun e => e.2.map (fun tm => (tm.id, tm.mark.center_x)))) =
    [[[(0, 100)]], [[]], [[]], [[]], [[]], [[(0, 10)]]] := by
  norm_num [buildBatchPointsFromResults, idReuseResults, areaAll, stableSort,
    stableInsert, List.enum, List.enumFrom, processFrame, detPhase,
    stepDetection, bestMatch, markBbox, bboxOverlapRatio, markA, markB,
    findMarksInAreas, inArea, List.filterMap_cons, List.filterMap_nil,
    List.getElem?_cons_zero, List.getElem?_nil, List.filter_cons,
    List.filter_nil]

/-- **C6.** When the reference point is unset, the named-area list is empty,
or the frame source is absent or reports zero frames, `run_batch_analysis`
returns without raising and leaves the whole application state — in
particular the previously stored `batch_result` — unchanged. -/
theorem runBatchAnalysis_precondition_noop (st : AppState)
    (h : st.base_x = none ∨ st.base_y = none ∨ st.named_areas = [] ∨
      st.reader = none ∨ ∃ r, st.reader = some r ∧ r.frame_count = 0) :
    runBatchAnalysis st = .ok st := by
  unfold runBatchAnalysis
  split_ifs with h1 h2
  · rfl
  · rfl
  · rcases h with h | h | h | h | ⟨r, hr, hfc⟩
    · exact absurd (Or.inl h) h1
    · exact absurd (Or.inr h) h1
    · exact absurd h h2
    · rw [h]
    · rw [hr]
      simp [hfc]

/-- Witness: a state with no reference point (and no areas, no reader) is
left untouched. -/
theorem runBatchAnalysis_precondition_noop_witness :
    runBatchAnalysis ⟨none, none, 200, 200, 1/2, 5, [], none, none⟩ =
      .ok ⟨none, none, 200, 200, 1/2, 5, [], none, none⟩ :=
  runBatchAnalysis_precondition_noop _ (Or.inl rfl)

/-- A failing read at any dispatched index makes the collection loop
propagate an error. -/
theorem collectResultsLoop_error (st : AppState) (r : Reader) (l : List ℕ)
    (i : ℕ) (hi : i ∈ l) (hread : r.read_frame i = none) :
    ∃ e, collectResultsLoop (loadAndDetect st r) l = .error e := by
  induction l with
  | nil => cases hi
  | cons j rest ih =>
    rcases List.mem_cons.mp hi with rfl | hmem
    · exact ⟨"Failed to load frame " ++ toString i,
        by simp [collectResultsLoop, loadAndDetect, hread]⟩
    · cases hj : loadAndDetect st r j with
      | error e => exact ⟨e, by simp [collectResultsLoop, hj]⟩
      | ok v =>
        obtain ⟨e, he⟩ := ih hmem
        exact ⟨e, by simp [collectResultsLoop, hj, he]⟩

/-- When every dispatched read succeeds, the collection loop returns exactly
one result per dispatched index, carrying that index. -/
theorem collectResultsLoop_ok (st : AppState) (r : Reader) (l : List ℕ)
    (h : ∀ i ∈ l, r.read_frame i ≠ none) :
    ∃ rs, collectResultsLoop (loadAndDetect st r) l = .ok rs ∧
      rs.map (fun v => v.image_index) = l := by
  induction l with
  | nil => exact ⟨[], rfl, rfl⟩
  | cons i rest ih =>
    obtain ⟨frame, hf⟩ :=
      Option.ne_none_iff_exists'.mp (h i (List.mem_cons_self i rest))
    obtain ⟨rs, hrs, hmap⟩ := ih (fun j hj => h j (List.mem_cons_of_mem _ hj))
    have hld : loadAndDetect st r i = .ok
        { image_index := i, timestamp := frame.ts
          marks := some (detectColoredMarks frame.contours
            st.min_area st.max_area st.min_circularity)
          base_temp_c := frame.base_temp_c } := by
      rw [loadAndDetect, hf]
    refine ⟨{ image_index := i, timestamp := frame.ts
              marks := some (detectColoredMarks frame.contours
                st.min_area st.max_area st.min_circularity)
              base_temp_c := frame.base_temp_c } :: rs, ?_, ?_⟩
    · simp [collectResultsLoop, hld, hrs]
    · simp [hmap]

/-- **C7.** If reading any sampled frame fails (the frame source returns no
frame for a dispatched index) while the batch preconditions hold, the whole
batch run aborts with an error — in particular no `BatchAnalysisResult` is
produced or stored; when every dispatched read succeeds, the collection
yields exactly one result per dispatched index. -/
theorem batch_read_failure_aborts :
    (∀ st r i, st.base_x ≠ none → st.base_y ≠ none → st.named_areas ≠ [] →
      st.reader = some r → r.frame_count ≠ 0 →
      i ∈ indicesToProcess r.frame_count
        (max 1 (min 100 st.batch_sampling_rate)).toNat →
      r.read_frame i = none →
      ∃ e, runBatchAnalysis st = .error e) ∧
    (∀ st r rate, (∀ i ∈ indicesToProcess r.frame_count rate,
        r.read_frame i ≠ none) →
      ∃ rs, collectResults st r rate = .ok rs ∧
        rs.map (fun v => v.image_index) = indicesToProcess r.frame_count rate) := by
  constructor
  · intro st r i hbx hby hareas hr hfc hi hread
    obtain ⟨e, he⟩ := collectResultsLoop_error st r _ i hi hread
    refine ⟨e, ?_⟩
    have hcbp : collectBatchPoints st r
        (max 1 (min 100 st.batch_sampling_rate)).toNat = .error e := by
      simp [collectBatchPoints, collectResults, he]
    unfold runBatchAnalysis
    rw [if_neg (by simp [hbx, hby]), if_neg hareas, hr]
    dsimp only
    rw [if_neg hfc, hcbp]
  · intro st r rate h
    exact collectResultsLoop_ok st r _ h

/-- Witness for `batch_read_failure_aborts`: the failing one-frame reader
aborts the run; the succeeding one yields one result for index `0`. -/
theorem batch_read_failure_aborts_witness :
    (∃ e, runBatchAnalysis failingState = .error e) ∧
    (∃ rs, collectResults okState okReader 5 = .ok rs ∧
      rs.map (fun v => v.image_index) = indicesToProcess okReader.frame_count 5) :=
  ⟨batch_read_failure_aborts.1 failingState failingReader 0
      (by simp [failingState]) (by simp [failingState]) (by simp [failingState])
      (by simp [failingState]) (by simp [failingState, failingReader])
      (by decide) rfl,
   batch_read_failure_aborts.2 okState okReader 5
      (fun i _ => by simp [okReader])⟩

/-- One `_build_batch_result` entry updates only its own area's slice. -/
theorem projAgg_aggStep (amc : String → ℕ) (p : BatchPoint) (s : AggState)
    (e : String × List TrackedMark) (n : String) :
    projAgg (aggStep amc p s e) n =
      if n = e.1 then areaStep (amc n) p e.2 (projAgg s n) else projAgg s n := by
  by_cases h : n = e.1
  · subst h
    rw [if_pos rfl]
    unfold aggStep areaStep projAgg
    by_cases hz : amc e.1 = 0
    · simp [hz]
    · simp [hz]
  · rw [if_neg h]
    unfold aggStep projAgg
    by_cases hz : amc e.1 = 0
    · simp [hz, h]
    · simp [hz, h]

/-- Folding `_build_batch_result` entries, seen from one area: only the
entries keyed by that area act, in order. -/
theorem projAgg_foldl_entries (amc : String → ℕ) (p : BatchPoint)
    (es : List (String × List TrackedMark)) (s : AggState) (n : String) :
    projAgg (es.foldl (aggStep amc p) s) n =
      (es.filter (fun e => e.1 = n)).foldl
        (fun a e => areaStep (amc n) p e.2 a) (projAgg s n) := by
  induction es generalizing s with
  | nil => rfl
  | cons e es ih =>
    rw [List.foldl_cons, ih, List.filter_cons]
    by_cases h : e.1 = n
    · rw [if_pos (by simpa using h), List.foldl_cons, projAgg_aggStep,
        if_pos h.symm]
    · rw [if_neg (by simpa using h), projAgg_aggStep,
        if_neg (fun hn => h hn.symm)]

/-- In an association list whose keys are duplicate-free, filtering on a
present key yields exactly one entry. -/
theorem filter_key_eq_singleton {β : Type} (l : List (String × β)) (n : String)
    (hmem : n ∈ l.map Prod.fst) (hnd : (l.map Prod.fst).Nodup) :
    ∃ ms, l.filter (fun e => e.1 = n) = [(n, ms)] := by
  induction l with
  | nil => cases hmem
  | cons e l ih =>
    obtain ⟨m, b⟩ := e
    rw [List.map_cons] at hnd hmem
    rw [List.nodup_cons] at hnd
    by_cases h : m = n
    · subst h
      refine ⟨b, ?_⟩
      rw [List.filter_cons, if_pos (by simp)]
      have hrest : l.filter (fun e => e.1 = m) = [] := by
        rw [List.filter_eq_nil_iff]
        intro x hx
        simp only [decide_eq_true_eq]
        intro hxe
        exact hnd.1 (List.mem_map.mpr ⟨x, hx, hxe⟩)
      rw [hrest]
    · rcases List.mem_cons.mp hmem with h1 | h1
      · exact absurd h1.symm h
      · obtain ⟨ms, hf⟩ := ih h1 hnd.2
        exact ⟨ms, by rw [List.filter_cons, if_neg (by simp [h]), hf]⟩

/-- One point of `_build_batch_result`, seen from one area with
duplicate-free keys: a single `areaStep` on that area's marks. -/
theorem projAgg_point (amc : String → ℕ) (p : BatchPoint) (s : AggState)
    (n : String) (hmem : n ∈ p.marks_in_areas.map Prod.fst)
    (hnd : (p.marks_in_areas.map Prod.fst).Nodup) :
    projAgg (p.marks_in_areas.foldl (aggStep amc p) s) n =
      areaStep (amc n) p (areaMarksAt p n) (projAgg s n) := by
  obtain ⟨ms, hf⟩ := filter_key_eq_singleton _ n hmem hnd
  have hms : areaMarksAt p n = ms := by
    unfold areaMarksAt
    rw [hf]
    simp
  rw [projAgg_foldl_entries, hf, hms]
  rfl

/-- The whole `_build_batch_result` fold, seen from one area: the per-area
scan. -/
theorem projAgg_points (amc : String → ℕ) (points : List BatchPoint)
    (n : String)
    (h : ∀ p ∈ points, n ∈ p.marks_in_areas.map Prod.fst ∧
      (p.marks_in_areas.map Prod.fst).Nodup) :
    ∀ s : AggState,
      projAgg (points.foldl
        (fun s p => p.marks_in_areas.foldl (aggStep amc p) s) s) n =
        areaScan (amc n) n (projAgg s n) points := by
  induction points with
  | nil => intro s; rfl
  | cons p ps ih =>
    intro s
    rw [List.foldl_cons, areaScan,
      ih (fun q hq => h q (List.mem_cons_of_mem _ hq)),
      projAgg_point _ _ _ _ (h p (List.mem_cons_self p ps)).1
        (h p (List.mem_cons_self p ps)).2]

/-- One `_get_area_max_counts` entry updates only its own area's slice. -/
theorem projMax_maxCountStep (s : MaxCountState)
    (e : String × List TrackedMark) (n : String) :
    projMax (maxCountStep s e) n =
      if n = e.1 then areaMaxStep e.2 (projMax s n) else projMax s n := by
  by_cases h : n = e.1
  · subst h
    rw [if_pos rfl]
    unfold maxCountStep areaMaxStep projMax
    by_cases hc : s.area_max_counts e.1 <
        (s.mark_ids_in_area e.1 ∪ markIds e.2).card
    · simp [hc]
    · simp [hc]
  · rw [if_neg h]
    unfold maxCountStep projMax
    by_cases hc : s.area_max_counts e.1 <
        (s.mark_ids_in_area e.1 ∪ markIds e.2).card
    · simp [hc, h]
    · simp [hc, h]

/-- Folding `_get_area_max_counts` entries, seen from one area. -/
theorem projMax_foldl_entries (es : List (String × List TrackedMark))
    (s : MaxCountState) (n : String) :
    projMax (es.foldl maxCountStep s) n =
      (es.filter (fun e => e.1 = n)).foldl
        (fun a e => areaMaxStep e.2 a) (projMax s n) := by
  induction es generalizing s with
  | nil => rfl
  | cons e es ih =>
    rw [List.foldl_cons, ih, List.filter_cons]
    by_cases h : e.1 = n
    · rw [if_pos (by simpa using h), List.foldl_cons, projMax_maxCountStep,
        if_pos h.symm]
    · rw [if_neg (by simpa using h), projMax_maxCountStep,
        if_neg (fun hn => h hn.symm)]

/-- One point of `_get_area_max_counts`, seen from one area with
duplicate-free keys. -/
theorem projMax_point (p : BatchPoint) (s : MaxCountState) (n : String)
    (hmem : n ∈ p.marks_in_areas.map Prod.fst)
    (hnd : (p.marks_in_areas.map Prod.fst).Nodup) :
    projMax (p.marks_in_areas.foldl maxCountStep s) n =
      areaMaxStep (areaMarksAt p n) (projMax s n) := by
  obtain ⟨ms, hf⟩ := filter_key_eq_singleton _ n hmem hnd
  have hms : areaMarksAt p n = ms := by
    unfold areaMarksAt
    rw [hf]
    simp
  rw [projMax_foldl_entries, hf, hms]
  rfl

/-- The whole `_get_area_max_counts` fold, seen from one area. -/
theorem projMax_points (points : List BatchPoint) (n : String)
    (h : ∀ p ∈ points, n ∈ p.marks_in_areas.map Prod.fst ∧
      (p.marks_in_areas.map Prod.fst).Nodup) :
    ∀ s : MaxCountState,
      projMax (points.foldl
        (fun s p => p.marks_in_areas.foldl maxCountStep s) s) n =
        areaMaxScan n (projMax s n) points := by
  induction points with
  | nil => intro s; rfl
  | cons p ps ih =>
    intro s
    rw [List.foldl_cons, areaMaxScan,
      ih (fun q hq => h q (List.mem_cons_of_mem _ hq)),
      projMax_point _ _ _ (h p (List.mem_cons_self p ps)).1
        (h p (List.mem_cons_self p ps)).2]

/-- The id set accumulated by the per-area max scan is the union of all ids
seen. -/
theorem areaMaxScan_ids (n : String) (ps : List BatchPoint) :
    ∀ (ids : Finset ℕ) (am : ℕ),
      (areaMaxScan n ⟨ids, am⟩ ps).ids = idsAfter n ids ps := by
  induction ps with
  | nil => intro ids am; rfl
  | cons p ps ih =>
    intro ids am
    rw [areaMaxScan, idsAfter]
    simp only [areaMaxStep]
    split_ifs with h
    · exact ih _ _
    · exact ih _ _

/-- The running maximum tracked by the per-area max scan always equals the
current union's cardinality (the union only grows). -/
theorem areaMaxScan_amax (n : String) (ps : List BatchPoint) :
    ∀ ids : Finset ℕ,
      (areaMaxScan n ⟨ids, ids.card⟩ ps).amax =
        (areaMaxScan n ⟨ids, ids.card⟩ ps).ids.card := by
  induction ps with
  | nil => intro ids; rfl
  | cons p ps ih =>
    intro ids
    rw [areaMaxScan]
    simp only [areaMaxStep]
    split_ifs with h
    · exact ih _
    · have hsub : ids ⊆ ids ∪ markIds (areaMarksAt p n) :=
        Finset.subset_union_left
      have hcard : (ids ∪ markIds (areaMarksAt p n)).card = ids.card :=
        le_antisymm (not_lt.mp h) (Finset.card_le_card hsub)
      rw [← hcard]
      exact ih _

/-- The starting id set is contained in the accumulated union. -/
theorem subset_idsAfter (n : String) (ps : List BatchPoint) :
    ∀ ids0 : Finset ℕ, ids0 ⊆ idsAfter n ids0 ps := by
  induction ps with
  | nil => intro ids0; exact Finset.Subset.refl _
  | cons p ps ih =>
    intro ids0
    exact Finset.Subset.trans Finset.subset_union_left (ih _)

/-- `pctList` emits one percent value per point. -/
theorem pctList_length (amax : ℕ) (n : String) (ps : List BatchPoint) :
    ∀ ids0 : Finset ℕ, (pctList amax n ids0 ps).length = ps.length := by
  induction ps with
  | nil => intro ids0; rfl
  | cons p ps ih =>
    intro ids0
    simp only [pctList, List.length_cons, ih]

/-- Every `pctList` value is a floor-scaled prefix-union cardinality, and
that cardinality is bounded by the full union's. -/
theorem pctList_mem (amax : ℕ) (n : String) (ps : List BatchPoint) :
    ∀ ids0 : Finset ℕ, ∀ q ∈ pctList amax n ids0 ps,
      ∃ c ≤ (idsAfter n ids0 ps).card, q = c * 100 / amax := by
  induction ps with
  | nil =>
    intro ids0 q hq
    cases hq
  | cons p ps ih =>
    intro ids0 q hq
    simp only [pctList] at hq
    rcases List.mem_cons.mp hq with rfl | hq
    · exact ⟨(ids0 ∪ markIds (areaMarksAt p n)).card,
        Finset.card_le_card (subset_idsAfter n ps _), rfl⟩
    · obtain ⟨c, hc, hrfl⟩ := ih _ q hq
      exact ⟨c, hc, hrfl⟩

/-- Percent values computed later from a larger union dominate the percent
of any earlier (smaller) union. -/
theorem pctList_lower_bound (amax : ℕ) (n : String) (ids0 : Finset ℕ)
    (ps : List BatchPoint) :
    ∀ ids1, ids0 ⊆ ids1 → ∀ q ∈ pctList amax n ids1 ps,
      ids0.card * 100 / amax ≤ q := by
  induction ps with
  | nil =>
    intro ids1 _ q hq
    cases hq
  | cons p ps ih =>
    intro ids1 hsub q hq
    simp only [pctList] at hq
    rcases List.mem_cons.mp hq with rfl | hq
    · exact Nat.div_le_div_right (Nat.mul_le_mul_right _
        (Finset.card_le_card (hsub.trans Finset.subset_union_left)))
    · exact ih _ (hsub.trans Finset.subset_union_left) q hq

/-- The emitted percent sequence is monotonically non-decreasing. -/
theorem pctList_pairwise (amax : ℕ) (n : String) (ps : List BatchPoint) :
    ∀ ids0 : Finset ℕ, List.Pairwise (· ≤ ·) (pctList amax n ids0 ps) := by
  induction ps with
  | nil => intro ids0; exact List.Pairwise.nil
  | cons p ps ih =>
    intro ids0
    simp only [pctList]
    refine List.Pairwise.cons ?_ (ih _)
    intro q hq
    exact pctList_lower_bound amax n _ ps _ (Finset.Subset.refl _) q hq

/-- With a zero area maximum the per-area scan appends a `0` per point and
performs no division. -/
theorem areaScan_counts_zero (n : String) (ps : List BatchPoint) :
    ∀ s : AreaAgg,
      (areaScan 0 n s ps).counts = s.counts ++ List.replicate ps.length 0 := by
  induction ps with
  | nil => intro s; simp [areaScan]
  | cons p ps ih =>
    intro s
    rw [areaScan, ih]
    simp [areaStep, List.replicate_succ]

/-- With a nonzero area maximum the per-area scan appends exactly the
`pctList` percent values. -/
theorem areaScan_counts_pos (amax : ℕ) (hamax : amax ≠ 0) (n : String)
    (ps : List BatchPoint) :
    ∀ s : AreaAgg,
      (areaScan amax n s ps).counts = s.counts ++ pctList amax n s.ids ps := by
  induction ps with
  | nil => intro s; simp [areaScan, pctList]
  | cons p ps ih =>
    intro s
    rw [areaScan, ih]
    simp [areaStep, hamax, pctList]

/-- The popped prefix and the remaining stack reassemble the stack. -/
theorem popPercentiles_append (c : ℕ) (st : List ℕ) :
    (popPercentiles c st).2 ++ (popPercentiles c st).1 = st := by
  induction st with
  | nil => rfl
  | cons t rest ih =>
    rw [popPercentiles]
    split_ifs with h
    · dsimp only
      rw [List.cons_append, ih]
    · rfl

/-- Popped thresholds come from the stack. -/
theorem popPercentiles_popped_subset (c : ℕ) (st : List ℕ) (t : ℕ)
    (ht : t ∈ (popPercentiles c st).2) : t ∈ st := by
  rw [← popPercentiles_append c st]
  exact List.mem_append_left _ ht

/-- Remaining thresholds come from the stack. -/
theorem popPercentiles_rest_subset (c : ℕ) (st : List ℕ) (t : ℕ)
    (ht : t ∈ (popPercentiles c st).1) : t ∈ st := by
  rw [← popPercentiles_append c st]
  exact List.mem_append_right _ ht

/-- On an ascending stack, the popped thresholds are exactly the stack
members the current percent reaches. -/
theorem popPercentiles_mem_popped (c : ℕ) (st : List ℕ)
    (hs : List.Pairwise (· ≤ ·) st) (t : ℕ) :
    t ∈ (popPercentiles c st).2 ↔ t ∈ st ∧ t ≤ c := by
  induction st with
  | nil => simp [popPercentiles]
  | cons u rest ih =>
    rw [List.pairwise_cons] at hs
    rw [popPercentiles]
    split_ifs with h
    · dsimp only
      rw [List.mem_cons, ih hs.2, List.mem_cons]
      constructor
      · rintro (rfl | ⟨hm, hc⟩)
        · exact ⟨Or.inl rfl, h⟩
        · exact ⟨Or.inr hm, hc⟩
      · rintro ⟨rfl | hm, hc⟩
        · exact Or.inl rfl
        · exact Or.inr ⟨hm, hc⟩
    · simp only [List.not_mem_nil, false_iff, not_and]
      intro hm hc
      rcases List.mem_cons.mp hm with rfl | hm
      · exact h hc
      · exact h (le_trans (hs.1 t hm) hc)

/-- On an ascending stack, the remaining thresholds are exactly the stack
members strictly above the current percent. -/
theorem popPercentiles_mem_rest (c : ℕ) (st : List ℕ)
    (hs : List.Pairwise (· ≤ ·) st) (t : ℕ) :
    t ∈ (popPercentiles c st).1 ↔ t ∈ st ∧ c < t := by
  induction st with
  | nil => simp [popPercentiles]
  | cons u rest ih =>
    rw [List.pairwise_cons] at hs
    rw [popPercentiles]
    split_ifs with h
    · dsimp only
      rw [ih hs.2, List.mem_cons]
      constructor
      · rintro ⟨hm, hc⟩
        exact ⟨Or.inr hm, hc⟩
      · rintro ⟨rfl | hm, hc⟩
        · exact absurd hc (by omega)
        · exact ⟨hm, hc⟩
    · dsimp only
      constructor
      · intro hm
        refine ⟨hm, ?_⟩
        rcases List.mem_cons.mp hm with rfl | hm
        · omega
        · exact lt_of_lt_of_le (by omega) (hs.1 t hm)
      · exact fun hp => hp.1

/-- The remaining stack is still ascending. -/
theorem popPercentiles_rest_sorted (c : ℕ) (st : List ℕ)
    (hs : List.Pairwise (· ≤ ·) st) :
    List.Pairwise (· ≤ ·) (popPercentiles c st).1 := by
  have hsl : (popPercentiles c st).1.Sublist st := by
    conv_rhs => rw [← popPercentiles_append c st]
    exact List.sublist_append_right _ _
  exact List.Pairwise.sublist hsl hs

/-- A threshold that is not on the stack is never recorded (and never
re-recorded once popped): its snapshot slot is untouched by the rest of the
scan. -/
theorem areaScan_snap_stable (amax : ℕ) (n : String) (ps : List BatchPoint)
    (t : ℕ) :
    ∀ s : AreaAgg, t ∉ s.stack → (areaScan amax n s ps).snap t = s.snap t := by
  induction ps with
  | nil => intro s _; rfl
  | cons p ps ih =>
    intro s ht
    rw [areaScan]
    by_cases hz : amax = 0
    · subst hz
      have hstep : areaStep 0 p (areaMarksAt p n) s =
          { s with counts := s.counts ++ [0] } := by
        simp [areaStep]
      rw [hstep]
      exact ih _ ht
    · have hstack : (areaStep amax p (areaMarksAt p n) s).stack =
          (popPercentiles ((s.ids ∪ markIds (areaMarksAt p n)).card * 100 / amax)
            s.stack).1 := by
        simp [areaStep, hz]
      have h2 : t ∉ (areaStep amax p (areaMarksAt p n) s).stack := by
        rw [hstack]
        intro hmem
        exact ht (popPercentiles_rest_subset _ _ t hmem)
      rw [ih _ h2]
      simp only [areaStep, if_neg hz]
      rw [if_neg (fun hp => ht (popPercentiles_popped_subset _ _ t hp))]

/-- For a threshold on an ascending stack, the scan records exactly the
snapshot of the first chronological point whose percent reaches the
threshold — with that point's timestamp, base temperature, frame index,
cumulative count and the fixed maximum — and records nothing if no point
reaches it. -/
theorem areaScan_snap_firstCross (amax : ℕ) (hamax : amax ≠ 0) (n : String)
    (t : ℕ) (ps : List BatchPoint) :
    ∀ s : AreaAgg, List.Pairwise (· ≤ ·) s.stack → t ∈ s.stack →
      (areaScan amax n s ps).snap t =
        match firstCross amax t n s.ids ps with
        | some pc => some ⟨pc.1.timestamp, pc.1.base_temp_c, pc.2, amax,
            pc.1.image_index⟩
        | none => s.snap t := by
  induction ps with
  | nil =>
    intro s _ _
    rfl
  | cons p ps ih =>
    intro s hs ht
    rw [areaScan, firstCross]
    have hids : (areaStep amax p (areaMarksAt p n) s).ids =
        s.ids ∪ markIds (areaMarksAt p n) := by
      simp [areaStep, hamax]
    have hstack : (areaStep amax p (areaMarksAt p n) s).stack =
        (popPercentiles ((s.ids ∪ markIds (areaMarksAt p n)).card * 100 / amax)
          s.stack).1 := by
      simp [areaStep, hamax]
    have hsnap : (areaStep amax p (areaMarksAt p n) s).snap t =
        if t ∈ (popPercentiles
            ((s.ids ∪ markIds (areaMarksAt p n)).card * 100 / amax) s.stack).2
        then some ⟨p.timestamp, p.base_temp_c,
          (s.ids ∪ markIds (areaMarksAt p n)).card, amax, p.image_index⟩
        else s.snap t := by
      simp [areaStep, hamax]
    by_cases hcr : t ≤ (s.ids ∪ markIds (areaMarksAt p n)).card * 100 / amax
    · rw [if_pos hcr]
      have hpop : t ∈ (popPercentiles
          ((s.ids ∪ markIds (areaMarksAt p n)).card * 100 / amax) s.stack).2 :=
        (popPercentiles_mem_popped _ _ hs t).mpr ⟨ht, hcr⟩
      have hout : t ∉ (areaStep amax p (areaMarksAt p n) s).stack := by
        rw [hstack]
        intro hmem
        have := ((popPercentiles_mem_rest _ _ hs t).mp hmem).2
        omega
      rw [areaScan_snap_stable amax n ps t _ hout, hsnap, if_pos hpop]
    · rw [if_neg hcr]
      have hnotpop : t ∉ (popPercentiles
          ((s.ids ∪ markIds (areaMarksAt p n)).card * 100 / amax) s.stack).2 := by
        intro hmem
        exact hcr ((popPercentiles_mem_popped _ _ hs t).mp hmem).2
      have hin : t ∈ (areaStep amax p (areaMarksAt p n) s).stack := by
        rw [hstack]
        exact (popPercentiles_mem_rest _ _ hs t).mpr ⟨ht, by omega⟩
      have hsorted : List.Pairwise (· ≤ ·)
          (areaStep amax p (areaMarksAt p n) s).stack := by
        rw [hstack]
        exact popPercentiles_rest_sorted _ _ hs
      rw [ih _ hsorted hin, hids]
      cases hfc : firstCross amax t n (s.ids ∪ markIds (areaMarksAt p n)) ps with
      | some pc => rfl
      | none =>
        rw [hsnap, if_neg hnotpop]

/-- Well-formed points with duplicate-free area names have each area's name
exactly once among every point's keys. -/
theorem wf_point_keys (points : List BatchPoint) (areas : List NamedArea)
    (hnd : (areas.map (fun a => a.name)).Nodup)
    (hwf : WellFormedPoints areas points) (a : NamedArea) (ha : a ∈ areas) :
    ∀ p ∈ points, a.name ∈ p.marks_in_areas.map Prod.fst ∧
      (p.marks_in_areas.map Prod.fst).Nodup := by
  intro p hp
  rw [hwf p hp]
  exact ⟨List.mem_map.mpr ⟨a, ha, rfl⟩, hnd⟩

/-- The area maximum `_get_area_max_counts` reports is the cardinality of
the union of all ids ever seen in that area. -/
theorem getAreaMaxCounts_eq_card (points : List BatchPoint)
    (areas : List NamedArea) (hnd : (areas.map (fun a => a.name)).Nodup)
    (hwf : WellFormedPoints areas points) (a : NamedArea) (ha : a ∈ areas) :
    getAreaMaxCounts points a.name = (idsAfter a.name ∅ points).card := by
  have hproj := projMax_points points a.name
    (wf_point_keys points areas hnd hwf a ha) ⟨fun _ => ∅, fun _ => 0⟩
  have h1 : getAreaMaxCounts points a.name =
      (areaMaxScan a.name ⟨∅, 0⟩ points).amax := congrArg AreaMax.amax hproj
  have h2 := areaMaxScan_amax a.name points (∅ : Finset ℕ)
  have h3 := areaMaxScan_ids a.name points (∅ : Finset ℕ)
    (Finset.card (∅ : Finset ℕ))
  exact h1.trans (h2.trans (congrArg Finset.card h3))

/-- `area_counts` per area equals the per-area scan's counts. -/
theorem buildBatchResult_counts_eq (points : List BatchPoint)
    (areas : List NamedArea) (hnd : (areas.map (fun a => a.name)).Nodup)
    (hwf : WellFormedPoints areas points) (a : NamedArea) (ha : a ∈ areas) :
    (buildBatchResult points).area_counts a.name =
      (areaScan (getAreaMaxCounts points a.name) a.name
        ⟨[], ∅, WANTED_PERCENTILES, fun _ => none⟩ points).counts :=
  congrArg AreaAgg.counts
    (projAgg_points (getAreaMaxCounts points) points a.name
      (wf_point_keys points areas hnd hwf a ha) aggInit)

/-- With a zero maximum, the per-area count list is all zeros. -/
theorem buildBatchResult_counts_zero (points : List BatchPoint)
    (areas : List NamedArea) (hnd : (areas.map (fun a => a.name)).Nodup)
    (hwf : WellFormedPoints areas points) (a : NamedArea) (ha : a ∈ areas)
    (hz : getAreaMaxCounts points a.name = 0) :
    (buildBatchResult points).area_counts a.name =
      List.replicate points.length 0 := by
  rw [buildBatchResult_counts_eq points areas hnd hwf a ha, hz,
    areaScan_counts_zero]
  rfl

/-- With a nonzero maximum, the per-area count list is `pctList`. -/
theorem buildBatchResult_counts_pos (points : List BatchPoint)
    (areas : List NamedArea) (hnd : (areas.map (fun a => a.name)).Nodup)
    (hwf : WellFormedPoints areas points) (a : NamedArea) (ha : a ∈ areas)
    (hz : getAreaMaxCounts points a.name ≠ 0) :
    (buildBatchResult points).area_counts a.name =
      pctList (getAreaMaxCounts points a.name) a.name ∅ points := by
  rw [buildBatchResult_counts_eq points areas hnd hwf a ha,
    areaScan_counts_pos _ hz]
  rfl

/-- The recorded percentile snapshot per area equals the per-area scan's. -/
theorem buildBatchResult_percentile_eq (points : List BatchPoint)
    (areas : List NamedArea) (hnd : (areas.map (fun a => a.name)).Nodup)
    (hwf : WellFormedPoints areas points) (a : NamedArea) (ha : a ∈ areas)
    (t : ℕ) (ht : t ∈ WANTED_PERCENTILES)
    (hz : getAreaMaxCounts points a.name ≠ 0) :
    (buildBatchResult points).percentile_for_area t a.name =
      match firstCross (getAreaMaxCounts points a.name) t a.name ∅ points with
      | some pc => some ⟨pc.1.timestamp, pc.1.base_temp_c, pc.2,
          getAreaMaxCounts points a.name, pc.1.image_index⟩
      | none => none := by
  have hsnap : (buildBatchResult points).percentile_for_area t a.name =
      (areaScan (getAreaMaxCounts points a.name) a.name
        ⟨[], ∅, WANTED_PERCENTILES, fun _ => none⟩ points).snap t :=
    congrArg (fun g => AreaAgg.snap g t)
      (projAgg_points (getAreaMaxCounts points) points a.name
        (wf_point_keys points areas hnd hwf a ha) aggInit)
  rw [hsnap, areaScan_snap_firstCross _ hz a.name t points _
    (by decide) ht]

/-- **C2.** For every area name of a `BatchAnalysisResult` built by
`_build_batch_result` (over points produced against the same duplicate-free
named areas), the per-area count list has exactly the `timestamps` length,
every entry lies in `[0, 100]`, and a zero `area_max` short-circuits to an
all-zero list without dividing. -/
theorem batch_counts_length_and_range (points : List BatchPoint)
    (areas : List NamedArea) (hnd : (areas.map (fun a => a.name)).Nodup)
    (hwf : WellFormedPoints areas points) (a : NamedArea) (ha : a ∈ areas) :
    ((buildBatchResult points).area_counts a.name).length =
      (buildBatchResult points).timestamps.length ∧
    (∀ q ∈ (buildBatchResult points).area_counts a.name, 0 ≤ q ∧ q ≤ 100) ∧
    (getAreaMaxCounts points a.name = 0 →
      ∀ q ∈ (buildBatchResult points).area_counts a.name, q = 0) := by
  have htlen : (buildBatchResult points).timestamps.length = points.length := by
    simp [buildBatchResult]
  by_cases hz : getAreaMaxCounts points a.name = 0
  · rw [buildBatchResult_counts_zero points areas hnd hwf a ha hz, htlen]
    refine ⟨List.length_replicate _ _, ?_, ?_⟩
    · intro q hq
      have := List.eq_of_mem_replicate hq
      omega
    · intro _ q hq
      exact List.eq_of_mem_replicate hq
  · rw [buildBatchResult_counts_pos points areas hnd hwf a ha hz, htlen]
    refine ⟨pctList_length _ _ points ∅, ?_, ?_⟩
    · intro q hq
      obtain ⟨c, hc, rfl⟩ := pctList_mem _ _ points ∅ q hq
      refine ⟨Nat.zero_le _, ?_⟩
      have hcle : c ≤ getAreaMaxCounts points a.name := by
        rw [getAreaMaxCounts_eq_card points areas hnd hwf a ha]
        exact hc
      calc c * 100 / getAreaMaxCounts points a.name
          ≤ getAreaMaxCounts points a.name * 100 /
              getAreaMaxCounts points a.name :=
            Nat.div_le_div_right (Nat.mul_le_mul_right _ hcle)
        _ = 100 := Nat.mul_div_cancel_left 100 (Nat.pos_of_ne_zero hz)
    · intro h0
      exact absurd h0 hz

/-- Witness for `batch_counts_length_and_range` at the concrete percentile
scenario. -/
theorem batch_counts_length_and_range_witness :
    ((buildBatchResult scenarioPoints).area_counts "A").length =
      (buildBatchResult scenarioPoints).timestamps.length ∧
    (∀ q ∈ (buildBatchResult scenarioPoints).area_counts "A",
      0 ≤ q ∧ q ≤ 100) ∧
    (getAreaMaxCounts scenarioPoints "A" = 0 →
      ∀ q ∈ (buildBatchResult scenarioPoints).area_counts "A", q = 0) :=
  batch_counts_length_and_range scenarioPoints scenarioAreas (by decide)
    (by decide) ⟨"A", 0, 0, 200, 200⟩ (by decide)

/-- **C9.** Every per-area percent-remaining sequence is monotonically
non-decreasing in chronological index: the cumulative distinct-id count is
non-decreasing, the maximum is fixed for the run, and the zero-max branch
emits a constant `0`. -/
theorem batch_counts_monotone (points : List BatchPoint)
    (areas : List NamedArea) (hnd : (areas.map (fun a => a.name)).Nodup)
    (hwf : WellFormedPoints areas points) (a : NamedArea) (ha : a ∈ areas)
    (i j : ℕ) (hij : i ≤ j)
    (hj : j < ((buildBatchResult points).area_counts a.name).length) :
    ((buildBatchResult points).area_counts a.name).get
        ⟨i, lt_of_le_of_lt hij hj⟩ ≤
      ((buildBatchResult points).area_counts a.name).get ⟨j, hj⟩ := by
  have hpw : List.Pairwise (· ≤ ·)
      ((buildBatchResult points).area_counts a.name) := by
    by_cases hz : getAreaMaxCounts points a.name = 0
    · rw [buildBatchResult_counts_zero points areas hnd hwf a ha hz]
      exact List.pairwise_replicate.mpr (Or.inr le_rfl)
    · rw [buildBatchResult_counts_pos points areas hnd hwf a ha hz]
      exact pctList_pairwise _ _ points ∅
  rcases Nat.lt_or_ge i j with hlt | hge
  · exact List.pairwise_iff_get.mp hpw ⟨i, lt_of_le_of_lt hij hj⟩ ⟨j, hj⟩ hlt
  · have hij2 : i = j := le_antisymm hij hge
    subst hij2
    exact le_rfl

/-- Witness for `batch_counts_monotone` at the concrete percentile
scenario (indices 2 and 7 of the `"A"` curve). -/
theorem batch_counts_monotone_witness :
    ((buildBatchResult scenarioPoints).area_counts "A").get ⟨2, by decide⟩ ≤
      ((buildBatchResult scenarioPoints).area_counts "A").get ⟨7, by decide⟩ :=
  batch_counts_monotone scenarioPoints scenarioAreas (by decide) (by decide)
    ⟨"A", 0, 0, 200, 200⟩ (by decide) 2 7 (by omega) (by decide)

/-- **C3 counterexample.** In the claim's own scenario (cumulative
distinct-id counts `[3,5,5,7,9,10,10,10,10,10]`, `area_max = 10`), the 50th
percentile snapshot is recorded at the point with frame index 1 — the first
index whose cumulative count 5 gives 50% — not at index 2 as the claim
states. -/
theorem percentile50_index_counterexample :
    ((buildBatchResult scenarioPoints).percentile_for_area 50 "A").map
        (fun q => q.frame_index) = some 1 ∧
      ¬ ((buildBatchResult scenarioPoints).percentile_for_area 50 "A").map
          (fun q => q.frame_index) = some 2 :=
  ⟨by decide, by decide⟩

/-- **C3 (amended).** For every area with nonzero maximum, each configured
percentile threshold (stack `[10, 50, 90]`, consumed smallest first) is
recorded exactly at the first chronological point whose percent reaches or
exceeds it — the snapshot carrying that point's timestamp, base temperature,
frame index, the cumulative distinct-id count, and `count_max = area_max` —
and never re-recorded; it is absent iff no point reaches it.  In the
concrete scenario with `area_max = 10` and cumulative counts
`[3,5,5,7,9,10,...]`, percentile 50 is recorded at index 1 with
`count_cur = 5` and `count_max = 10`. -/
theorem batch_percentile_crossing_spec (points : List BatchPoint)
    (areas : List NamedArea) (hnd : (areas.map (fun a => a.name)).Nodup)
    (hwf : WellFormedPoints areas points) (a : NamedArea) (ha : a ∈ areas)
    (t : ℕ) (ht : t ∈ WANTED_PERCENTILES)
    (hz : getAreaMaxCounts points a.name ≠ 0) :
    ((buildBatchResult points).percentile_for_area t a.name =
      match firstCross (getAreaMaxCounts points a.name) t a.name ∅ points with
      | some pc => some ⟨pc.1.timestamp, pc.1.base_temp_c, pc.2,
          getAreaMaxCounts points a.name, pc.1.image_index⟩
      | none => none) ∧
    (buildBatchResult scenarioPoints).percentile_for_area 50 "A" =
      some ⟨1, 20, 5, 10, 1⟩ :=
  ⟨buildBatchResult_percentile_eq points areas hnd hwf a ha t ht hz,
   by decide⟩

/-- Witness for `batch_percentile_crossing_spec` at the concrete
scenario. -/
theorem batch_percentile_crossing_witness :
    (buildBatchResult scenarioPoints).percentile_for_area 50 "A" =
      some ⟨1, 20, 5, 10, 1⟩ :=
  (batch_percentile_crossing_spec scenarioPoints scenarioAreas (by decide)
    (by decide) ⟨"A", 0, 0, 200, 200⟩ (by decide) 50 (by decide)
    (by decide)).2

end P3DotAnalyzer
